import Mathlib

/-!
Verification of the audio/video temporal-alignment core of the opendesc
repository: the offset search (`findBestOffset`, `normalizeSeries`), the
subtitle-slot fitter (`ensureClipFitsSubtitleSlot`) and the alignment
orchestrator (the `alignment:run` handler), shallowly embedded in Lean.

Floating-point numbers of the source are idealised as real numbers (for the
faithful definitions) and, where the source values are rational and only
order comparisons matter, as rationals (for executable companions used to
evaluate concrete inputs).
-/

namespace Opendesc

/-! ## Offset search (source: `findBestOffset`, `normalizeSeries`)

The search window constant: `const ALIGN_MAX_OFFSET_MS = 15 * 60 * 1000`. -/

def ALIGN_MAX_OFFSET_MS : ℚ := 15 * 60 * 1000

/-- `Math.floor(ALIGN_MAX_OFFSET_MS / hopMs)`.  For the positive hop values the
claims quantify over this agrees with the source; `Int.toNat` clamps the
(irrelevant) non-positive-hop case. -/
def maxStepsFor (hopMs : ℚ) : ℕ := (⌊ALIGN_MAX_OFFSET_MS / hopMs⌋).toNat

/-- The candidate steps `-maxSteps, …, maxSteps`, in the order the source's
`for (let step = -maxSteps; step <= maxSteps; step++)` loop visits them. -/
def window (hopMs : ℚ) : List ℤ :=
  (List.range (2 * maxStepsFor hopMs + 1)).map (fun (i : ℕ) => (i : ℤ) - (maxStepsFor hopMs : ℤ))

/-- `len = Math.min(aNorm.length - aStart, bNorm.length - bStart)` where
`aStart = max 0 (-step)` and `bStart = max 0 step`; may be negative. -/
def overlapLen (la lb : ℕ) (step : ℤ) : ℤ :=
  min ((la : ℤ) - ((-step).toNat : ℤ)) ((lb : ℤ) - (step.toNat : ℤ))

/-- The candidate score of one step: the mean dot product over the overlap,
`-∞` (here `⊥`) when the overlap is empty, exactly as in the source's
`const score = count > 0 ? sum / count : -Infinity`. -/
def scoreAt {α : Type} [LinearOrderedField α] (zA zB : List α) (step : ℤ) : WithBot α :=
  if 0 < overlapLen zA.length zB.length step then
    (((∑ i ∈ Finset.range (overlapLen zA.length zB.length step).toNat,
        zA.getD ((-step).toNat + i) 0 * zB.getD (step.toNat + i) 0) /
      ((overlapLen zA.length zB.length step : ℤ) : α) : α) : WithBot α)
  else ⊥

/-- The result record `{ offsetMs, score }` of the search. -/
structure OffsetResult (α : Type) where
  offsetMs : ℚ
  score : WithBot α
  deriving DecidableEq

/-- The source's selection loop: start from `{ offsetMs: 0, score: -Infinity }`
and advance only on a strictly greater score (`if (score > best.score)`). -/
def bestFold {α : Type} [LinearOrder α] (hopMs : ℚ) (f : ℤ → WithBot α) :
    List ℤ → OffsetResult α → OffsetResult α
  | [], acc => acc
  | t :: ts, acc =>
      bestFold hopMs f ts (if acc.score < f t then ⟨(t : ℚ) * hopMs, f t⟩ else acc)

/-- `values.length || 1` (the `|| 1` guards the empty series). -/
noncomputable def meanR (a : List ℝ) : ℝ :=
  a.sum / (if a.length = 0 then 1 else (a.length : ℝ))

noncomputable def varR (a : List ℝ) : ℝ :=
  (a.map (fun x => (x - meanR a) ^ 2)).sum / (if a.length = 0 then 1 else (a.length : ℝ))

/-- `const std = Math.max(Math.sqrt(varSum), 1e-6)`. -/
noncomputable def stdR (a : List ℝ) : ℝ := max (Real.sqrt (varR a)) (1 / 1000000)

/-- `normalizeSeries`: z-score normalisation with the `1e-6` floor on the
standard deviation. -/
noncomputable def normalizeSeries (a : List ℝ) : List ℝ :=
  a.map (fun x => (x - meanR a) / stdR a)

/-- `findBestOffset(a, b, hopMs)`: normalise both series, then scan the window
keeping the strictly best mean-correlation candidate. -/
noncomputable def findBestOffset (a b : List ℝ) (hopMs : ℚ) : OffsetResult ℝ :=
  bestFold hopMs (scoreAt (normalizeSeries a) (normalizeSeries b)) (window hopMs) ⟨0, ⊥⟩

/-! ### Executable rational companion

Dividing a series by its (fixed, positive) standard deviation scales every
candidate score by the same positive constant, so the argmax of the scan — and
hence the published `offsetMs` — is unchanged if normalisation only centers the
series.  `findBestOffsetQ` is that order-equivalent companion over `ℚ`; the
bridge theorems below prove its `offsetMs` agrees with `findBestOffset` on
rational-valued inputs, which lets concrete runs be evaluated by `decide`. -/

def listMean (a : List ℚ) : ℚ :=
  a.sum / (if a.length = 0 then 1 else (a.length : ℚ))

def centered (a : List ℚ) : List ℚ := a.map (fun x => x - listMean a)

def findBestOffsetQ (a b : List ℚ) (hopMs : ℚ) : OffsetResult ℚ :=
  bestFold hopMs (scoreAt (centered a) (centered b)) (window hopMs) ⟨0, ⊥⟩

/-- Casting a rational series to the real numbers. -/
def castList (a : List ℚ) : List ℝ := a.map (fun (q : ℚ) => (q : ℝ))

/-! ### Generic facts about the selection loop -/

theorem window_mem (hopMs : ℚ) (t : ℤ) :
    t ∈ window hopMs ↔ -(maxStepsFor hopMs : ℤ) ≤ t ∧ t ≤ (maxStepsFor hopMs : ℤ) := by
  unfold window
  rw [List.mem_map]
  constructor
  · rintro ⟨i, hi, rfl⟩
    rw [List.mem_range] at hi
    omega
  · rintro ⟨h1, h2⟩
    refine ⟨(t + maxStepsFor hopMs).toNat, ?_, ?_⟩
    · rw [List.mem_range]
      omega
    · show (((t + (maxStepsFor hopMs : ℤ)).toNat : ℤ)) - (maxStepsFor hopMs : ℤ) = t
      omega

theorem zero_mem_window (hopMs : ℚ) : (0 : ℤ) ∈ window hopMs := by
  rw [window_mem]
  omega

theorem bestFold_init_le {α : Type} [LinearOrder α] (hopMs : ℚ) (f : ℤ → WithBot α) :
    ∀ (l : List ℤ) (acc : OffsetResult α), acc.score ≤ (bestFold hopMs f l acc).score := by
  intro l
  induction l with
  | nil => intro acc; simp [bestFold]
  | cons t ts ih =>
    intro acc
    simp only [bestFold]
    by_cases h : acc.score < f t
    · rw [if_pos h]
      exact le_trans (le_of_lt h) (ih ⟨(t : ℚ) * hopMs, f t⟩)
    · rw [if_neg h]
      exact ih acc

theorem bestFold_le_score {α : Type} [LinearOrder α] (hopMs : ℚ) (f : ℤ → WithBot α) :
    ∀ (l : List ℤ) (acc : OffsetResult α) (t : ℤ), t ∈ l →
      f t ≤ (bestFold hopMs f l acc).score := by
  intro l
  induction l with
  | nil => intro acc t ht; simp at ht
  | cons s ts ih =>
    intro acc t ht
    rcases List.mem_cons.mp ht with rfl | hmem
    · simp only [bestFold]
      by_cases h : acc.score < f t
      · rw [if_pos h]
        exact bestFold_init_le hopMs f ts ⟨(t : ℚ) * hopMs, f t⟩
      · rw [if_neg h]
        exact le_trans (not_lt.mp h) (bestFold_init_le hopMs f ts acc)
    · simp only [bestFold]
      split <;> exact ih _ _ hmem

theorem bestFold_eq_init_or_mem {α : Type} [LinearOrder α] (hopMs : ℚ) (f : ℤ → WithBot α) :
    ∀ (l : List ℤ) (acc : OffsetResult α),
      bestFold hopMs f l acc = acc ∨
        ∃ t ∈ l, bestFold hopMs f l acc = ⟨(t : ℚ) * hopMs, f t⟩ := by
  intro l
  induction l with
  | nil => intro acc; exact Or.inl rfl
  | cons s ts ih =>
    intro acc
    simp only [bestFold]
    by_cases h : acc.score < f s
    · rw [if_pos h]
      rcases ih (⟨(s : ℚ) * hopMs, f s⟩ : OffsetResult α) with h1 | ⟨t, ht, h2⟩
      · exact Or.inr ⟨s, List.mem_cons_self .., h1⟩
      · exact Or.inr ⟨t, List.mem_cons_of_mem _ ht, h2⟩
    · rw [if_neg h]
      rcases ih acc with h1 | ⟨t, ht, h2⟩
      · exact Or.inl h1
      · exact Or.inr ⟨t, List.mem_cons_of_mem _ ht, h2⟩

theorem bestFold_no_update {α : Type} [LinearOrder α] (hopMs : ℚ) (f : ℤ → WithBot α) :
    ∀ (l : List ℤ) (acc : OffsetResult α), (∀ t ∈ l, ¬ acc.score < f t) →
      bestFold hopMs f l acc = acc := by
  intro l
  induction l with
  | nil => intro acc _; rfl
  | cons s ts ih =>
    intro acc h
    simp only [bestFold]
    rw [if_neg (h s (List.mem_cons_self ..))]
    exact ih acc (fun t ht => h t (List.mem_cons_of_mem _ ht))

/-- If one candidate step scores strictly above every other candidate and above
the initial accumulator, the scan returns exactly that candidate. -/
theorem bestFold_argmax {α : Type} [LinearOrder α] (hopMs : ℚ) (f : ℤ → WithBot α) :
    ∀ (l : List ℤ) (acc : OffsetResult α) (tstar : ℤ), tstar ∈ l →
      (∀ t ∈ l, t ≠ tstar → f t < f tstar) → acc.score < f tstar →
      bestFold hopMs f l acc = ⟨(tstar : ℚ) * hopMs, f tstar⟩ := by
  intro l
  induction l with
  | nil => intro acc tstar ht; simp at ht
  | cons s ts ih =>
    intro acc tstar ht hmax hacc
    rcases List.mem_cons.mp ht with rfl | hmem
    · simp only [bestFold, if_pos hacc]
      refine bestFold_no_update hopMs f ts _ (fun t htm => ?_)
      by_cases hts : t = tstar
      · subst hts; exact lt_irrefl _
      · exact not_lt.mpr (le_of_lt (hmax t (List.mem_cons_of_mem _ htm) hts))
    · have hs : s ≠ tstar → f s < f tstar := hmax s (List.mem_cons_self ..)
      simp only [bestFold]
      by_cases heq : s = tstar
      · subst heq
        rw [if_pos hacc]
        refine bestFold_no_update hopMs f ts _ (fun t htm => ?_)
        by_cases hts : t = s
        · subst hts; exact lt_irrefl _
        · exact not_lt.mpr (le_of_lt (hmax t (List.mem_cons_of_mem _ htm) hts))
      · have hlt : f s < f tstar := hs heq
        by_cases h : acc.score < f s
        · rw [if_pos h]
          exact ih _ tstar hmem (fun t htm hts => hmax t (List.mem_cons_of_mem _ htm) hts) hlt
        · rw [if_neg h]
          exact ih _ tstar hmem (fun t htm hts => hmax t (List.mem_cons_of_mem _ htm) hts) hacc

/-! ### Bridge between the real search and its rational companion -/

theorem castList_length (a : List ℚ) : (castList a).length = a.length := by
  simp [castList]

theorem castList_sum (a : List ℚ) : (castList a).sum = ((a.sum : ℚ) : ℝ) := by
  simp only [castList]
  exact (map_list_sum (Rat.castHom ℝ) a).symm

theorem meanR_castList (a : List ℚ) : meanR (castList a) = ((listMean a : ℚ) : ℝ) := by
  unfold meanR listMean
  rw [castList_sum, castList_length, Rat.cast_div]
  congr 1
  split <;> simp

theorem stdR_pos (a : List ℝ) : 0 < stdR a :=
  lt_of_lt_of_le (by norm_num) (le_max_right _ _)

theorem normalizeSeries_length (x : List ℝ) : (normalizeSeries x).length = x.length := by
  simp [normalizeSeries]

theorem centered_length (a : List ℚ) : (centered a).length = a.length := by
  simp [centered]

/-- Pointwise description of the normalised casted series: each entry is the
corresponding centered rational entry divided by the (real) standard
deviation; the out-of-range default 0 is preserved. -/
theorem normalized_getD (a : List ℚ) (j : ℕ) :
    (normalizeSeries (castList a)).getD j 0 =
      (((centered a).getD j 0 : ℚ) : ℝ) / stdR (castList a) := by
  unfold normalizeSeries centered
  rcases h : a[j]? with _ | x
  · have hc : (castList a)[j]? = none := by
      unfold castList
      rw [List.getElem?_map, h]
      rfl
    rw [List.getD_eq_getElem?_getD, List.getD_eq_getElem?_getD,
      List.getElem?_map, List.getElem?_map, hc, h]
    simp
  · have hc : (castList a)[j]? = some ((x : ℚ) : ℝ) := by
      unfold castList
      rw [List.getElem?_map, h]
      rfl
    rw [List.getD_eq_getElem?_getD, List.getD_eq_getElem?_getD,
      List.getElem?_map, List.getElem?_map, hc, h]
    simp only [Option.map_some', Option.getD_some]
    rw [meanR_castList]
    push_cast
    ring

/-- Scaling a candidate score by a constant, `-∞` fixed. -/
def scaleW (c : ℝ) (w : WithBot ℚ) : WithBot ℝ := w.map (fun (q : ℚ) => c * (q : ℝ))

theorem scaleW_bot (c : ℝ) : scaleW c ⊥ = ⊥ := rfl

theorem scaleW_lt_iff (c : ℝ) (hc : 0 < c) (x y : WithBot ℚ) :
    x < y ↔ scaleW c x < scaleW c y := by
  induction x using WithBot.recBotCoe with
  | bot =>
    induction y using WithBot.recBotCoe with
    | bot => simp [scaleW]
    | coe q =>
      simp only [scaleW, WithBot.map_bot, WithBot.map_coe]
      constructor <;> intro _ <;> exact WithBot.bot_lt_coe _
  | coe p =>
    induction y using WithBot.recBotCoe with
    | bot => simp [scaleW, WithBot.map_coe]
    | coe q =>
      simp only [scaleW, WithBot.map_coe, WithBot.coe_lt_coe]
      rw [mul_lt_mul_left hc, Rat.cast_lt]

/-- Each real candidate score is the corresponding rational candidate score
scaled by the fixed positive constant `1 / (stdA * stdB)`. -/
theorem scoreAt_castList (a b : List ℚ) (t : ℤ) :
    scoreAt (normalizeSeries (castList a)) (normalizeSeries (castList b)) t =
      scaleW ((stdR (castList a) * stdR (castList b))⁻¹)
        (scoreAt (centered a) (centered b) t) := by
  unfold scoreAt
  rw [normalizeSeries_length, castList_length, normalizeSeries_length, castList_length,
    centered_length, centered_length]
  split
  case isFalse h => simp [scaleW]
  case isTrue h =>
    rw [scaleW, WithBot.map_coe, WithBot.coe_eq_coe]
    have hsum : (∑ i ∈ Finset.range (overlapLen a.length b.length t).toNat,
        (normalizeSeries (castList a)).getD ((-t).toNat + i) 0 *
          (normalizeSeries (castList b)).getD (t.toNat + i) 0) =
        (stdR (castList a) * stdR (castList b))⁻¹ *
          ((∑ i ∈ Finset.range (overlapLen a.length b.length t).toNat,
            (centered a).getD ((-t).toNat + i) 0 * (centered b).getD (t.toNat + i) 0 : ℚ) : ℝ) := by
      push_cast
      rw [Finset.mul_sum]
      refine Finset.sum_congr rfl fun i _ => ?_
      rw [normalized_getD, normalized_getD]
      have ha := (stdR_pos (castList a)).ne.symm
      have hb := (stdR_pos (castList b)).ne.symm
      field_simp
    rw [hsum, Rat.cast_div]
    push_cast
    have ha := (stdR_pos (castList a)).ne.symm
    have hb := (stdR_pos (castList b)).ne.symm
    have hL : ((overlapLen a.length b.length t : ℤ) : ℝ) ≠ 0 := by
      have hpos : (0 : ℤ) < overlapLen a.length b.length t := h
      positivity
    field_simp

/-- Transport of the scan along a strictly-monotone transformation of scores:
scaling every candidate score the same way cannot change which candidate wins. -/
theorem bestFold_map {α β : Type} [LinearOrder α] [LinearOrder β]
    (g : WithBot α → WithBot β) (hg : ∀ x y, x < y ↔ g x < g y)
    (hopMs : ℚ) (f : ℤ → WithBot α) :
    ∀ (l : List ℤ) (acc : OffsetResult α),
      bestFold hopMs (fun t => g (f t)) l ⟨acc.offsetMs, g acc.score⟩ =
        ⟨(bestFold hopMs f l acc).offsetMs, g (bestFold hopMs f l acc).score⟩ := by
  intro l
  induction l with
  | nil => intro acc; rfl
  | cons s ts ih =>
    intro acc
    simp only [bestFold]
    by_cases h : acc.score < f s
    · rw [if_pos ((hg _ _).mp h), if_pos h]
      exact ih ⟨(s : ℚ) * hopMs, f s⟩
    · rw [if_neg (fun hc => h ((hg _ _).mpr hc)), if_neg h]
      exact ih acc

/-- The real search and its rational companion agree: same `offsetMs`, and the
real score is the rational score scaled by `1 / (stdA * stdB) > 0`. -/
theorem findBestOffset_castList (a b : List ℚ) (hopMs : ℚ) :
    findBestOffset (castList a) (castList b) hopMs =
      ⟨(findBestOffsetQ a b hopMs).offsetMs,
        scaleW ((stdR (castList a) * stdR (castList b))⁻¹)
          (findBestOffsetQ a b hopMs).score⟩ := by
  unfold findBestOffset findBestOffsetQ
  have hc : 0 < (stdR (castList a) * stdR (castList b))⁻¹ := by
    have ha := stdR_pos (castList a)
    have hb := stdR_pos (castList b)
    positivity
  have hfun : scoreAt (normalizeSeries (castList a)) (normalizeSeries (castList b)) =
      fun t => scaleW ((stdR (castList a) * stdR (castList b))⁻¹)
        (scoreAt (centered a) (centered b) t) :=
    funext (scoreAt_castList a b)
  rw [hfun]
  have hinit : (⟨0, ⊥⟩ : OffsetResult ℝ) =
      ⟨(⟨0, ⊥⟩ : OffsetResult ℚ).offsetMs,
        scaleW ((stdR (castList a) * stdR (castList b))⁻¹)
          (⟨0, ⊥⟩ : OffsetResult ℚ).score⟩ := rfl
  rw [hinit]
  exact bestFold_map _ (scaleW_lt_iff _ hc) hopMs _ (window hopMs) ⟨0, ⊥⟩

theorem findBestOffset_offsetMs_castList (a b : List ℚ) (hopMs : ℚ) :
    (findBestOffset (castList a) (castList b) hopMs).offsetMs =
      (findBestOffsetQ a b hopMs).offsetMs := by
  rw [findBestOffset_castList]

/-- Swapping the two series mirrors every candidate score across step `0`. -/
theorem scoreAt_swap {α : Type} [LinearOrderedField α] (zA zB : List α) (t : ℤ) :
    scoreAt zB zA t = scoreAt zA zB (-t) := by
  unfold scoreAt overlapLen
  rw [neg_neg]
  rw [min_comm ((zB.length : ℤ) - ((-t).toNat : ℤ)) ((zA.length : ℤ) - (t.toNat : ℤ))]
  split
  · congr 2
    exact Finset.sum_congr rfl fun i _ => mul_comm _ _
  · rfl

theorem window_neg_mem (hopMs : ℚ) (t : ℤ) (ht : t ∈ window hopMs) :
    -t ∈ window hopMs := by
  rw [window_mem] at ht ⊢
  omega

/-! ### Spike series (for the shifted-offset-recovery claim)

`spike n p` is an energy series of length `n` holding a single unit spike at
position `p` over a silent (zero) baseline — the spec's own example of a
"single distinguishable spike pattern". -/

def spike (n p : ℕ) : List ℚ :=
  (List.range n).map (fun (i : ℕ) => if i = p then 1 else 0)

theorem spike_length (n p : ℕ) : (spike n p).length = n := by
  simp [spike]

theorem range_map_sum (f : ℕ → ℚ) (n : ℕ) :
    ((List.range n).map f).sum = ∑ i ∈ Finset.range n, f i := by
  induction n with
  | zero => simp
  | succ m ih =>
    rw [List.range_succ, List.map_append, List.sum_append, Finset.sum_range_succ, ih]
    simp

theorem spike_sum (n p : ℕ) (hp : p < n) : (spike n p).sum = 1 := by
  unfold spike
  rw [range_map_sum]
  rw [Finset.sum_ite_eq' (Finset.range n) p (fun _ => (1 : ℚ))]
  rw [if_pos (Finset.mem_range.mpr hp)]

theorem listMean_spike (n p : ℕ) (hp : p < n) : listMean (spike n p) = 1 / (n : ℚ) := by
  unfold listMean
  rw [spike_sum n p hp, spike_length, if_neg (by omega)]

theorem spike_getD (n p j : ℕ) (hj : j < n) :
    (spike n p).getD j 0 = if j = p then 1 else 0 := by
  unfold spike
  rw [List.getD_eq_getElem?_getD, List.getElem?_map, List.getElem?_range hj]
  rfl

theorem centered_spike_length (n p : ℕ) : (centered (spike n p)).length = n := by
  rw [centered_length, spike_length]

theorem centered_spike_getD (n p j : ℕ) (hp : p < n) (hj : j < n) :
    (centered (spike n p)).getD j 0 = (if j = p then (1 : ℚ) else 0) - 1 / (n : ℚ) := by
  unfold centered
  rw [List.getD_eq_getElem?_getD, List.getElem?_map]
  have hsome : (spike n p)[j]? = some (if j = p then (1 : ℚ) else 0) := by
    unfold spike
    rw [List.getElem?_map, List.getElem?_range hj]
    rfl
  rw [hsome, listMean_spike n p hp]
  rfl

theorem sum_indicator_shift (s L j : ℕ) :
    (∑ i ∈ Finset.range L, if s + i = j then (1 : ℚ) else 0) =
      if s ≤ j ∧ j < s + L then 1 else 0 := by
  by_cases hs : s ≤ j
  · have hcongr : ∀ i ∈ Finset.range L,
        (if s + i = j then (1 : ℚ) else 0) = if i = j - s then 1 else 0 := by
      intro i _
      exact if_congr (by omega) rfl rfl
    rw [Finset.sum_congr rfl hcongr,
      Finset.sum_ite_eq' (Finset.range L) (j - s) (fun _ => (1 : ℚ))]
    simp only [Finset.mem_range]
    by_cases h2 : j - s < L
    · rw [if_pos h2, if_pos ⟨hs, by omega⟩]
    · rw [if_neg h2, if_neg (by omega)]
  · have hcongr : ∀ i ∈ Finset.range L, (if s + i = j then (1 : ℚ) else 0) = 0 := by
      intro i _
      rw [if_neg (by omega)]
    rw [Finset.sum_congr rfl hcongr, Finset.sum_const, smul_zero, if_neg (by omega)]

theorem overlap_facts (n : ℕ) (t : ℤ) (hov : 0 < overlapLen n n t) :
    0 < (overlapLen n n t).toNat ∧
      ((-t).toNat) + (overlapLen n n t).toNat ≤ n ∧
      (t.toNat) + (overlapLen n n t).toNat ≤ n ∧
      ((t.toNat : ℤ) - ((-t).toNat : ℤ) = t) := by
  unfold overlapLen at hov ⊢
  omega

/-- Expansion of the overlap dot product of two centered spike series into
indicator sums. -/
theorem spike_sum_expand (n p q : ℕ) (hp : p < n) (hq : q < n) (sa sb L : ℕ)
    (hsaL : sa + L ≤ n) (hsbL : sb + L ≤ n) :
    (∑ i ∈ Finset.range L,
        (centered (spike n p)).getD (sa + i) 0 * (centered (spike n q)).getD (sb + i) 0) =
      (∑ i ∈ Finset.range L,
        (if sa + i = p then (1 : ℚ) else 0) * (if sb + i = q then (1 : ℚ) else 0))
      - (1 / (n : ℚ)) * (∑ i ∈ Finset.range L, if sa + i = p then (1 : ℚ) else 0)
      - (1 / (n : ℚ)) * (∑ i ∈ Finset.range L, if sb + i = q then (1 : ℚ) else 0)
      + (L : ℚ) * (1 / (n : ℚ)) ^ 2 := by
  have hterm : ∀ i ∈ Finset.range L,
      (centered (spike n p)).getD (sa + i) 0 * (centered (spike n q)).getD (sb + i) 0 =
        (if sa + i = p then (1 : ℚ) else 0) * (if sb + i = q then (1 : ℚ) else 0)
        - (1 / (n : ℚ)) * (if sa + i = p then (1 : ℚ) else 0)
        - (1 / (n : ℚ)) * (if sb + i = q then (1 : ℚ) else 0) + (1 / (n : ℚ)) ^ 2 := by
    intro i hi
    rw [Finset.mem_range] at hi
    rw [centered_spike_getD n p (sa + i) hp (by omega),
      centered_spike_getD n q (sb + i) hq (by omega)]
    ring
  rw [Finset.sum_congr rfl hterm]
  rw [Finset.sum_add_distrib, Finset.sum_sub_distrib, Finset.sum_sub_distrib,
    ← Finset.mul_sum, ← Finset.mul_sum, Finset.sum_const, Finset.card_range, nsmul_eq_mul]

/-- At a step other than the true shift the two spikes never align, so the
candidate score is at most the baseline `1/n²`. -/
theorem scoreAt_spike_unaligned (n p q : ℕ) (hn : 3 ≤ n) (hp : p < n) (hq : q < n)
    (t : ℤ) (htk : t ≠ (q : ℤ) - (p : ℤ)) (hov : 0 < overlapLen n n t) :
    ∃ v : ℚ, scoreAt (centered (spike n p)) (centered (spike n q)) t = (v : WithBot ℚ) ∧
      v ≤ 1 / ((n : ℚ)) ^ 2 := by
  obtain ⟨hLpos, hsaL, hsbL, hts⟩ := overlap_facts n t hov
  unfold scoreAt
  rw [centered_spike_length, centered_spike_length, if_pos hov]
  refine ⟨_, rfl, ?_⟩
  have hcast : ((overlapLen n n t : ℤ) : ℚ) = ((overlapLen n n t).toNat : ℚ) := by
    exact_mod_cast (congrArg (fun (z : ℤ) => (z : ℚ)) (Int.toNat_of_nonneg (le_of_lt hov))).symm
  rw [hcast, spike_sum_expand n p q hp hq _ _ _ hsaL hsbL]
  have haligned : (∑ i ∈ Finset.range (overlapLen n n t).toNat,
      (if (-t).toNat + i = p then (1 : ℚ) else 0) * (if t.toNat + i = q then (1 : ℚ) else 0)) = 0 := by
    refine Finset.sum_eq_zero fun i _ => ?_
    by_cases c1 : (-t).toNat + i = p
    · by_cases c2 : t.toNat + i = q
      · exact absurd (by omega) htk
      · rw [if_neg c2, mul_zero]
    · rw [if_neg c1, zero_mul]
  rw [haligned]
  have hn0 : (0 : ℚ) < (n : ℚ) := by exact_mod_cast (by omega : 0 < n)
  have hL0 : (0 : ℚ) < ((overlapLen n n t).toNat : ℚ) := by exact_mod_cast hLpos
  have hip : (0 : ℚ) ≤ ∑ i ∈ Finset.range (overlapLen n n t).toNat,
      (if (-t).toNat + i = p then (1 : ℚ) else 0) :=
    Finset.sum_nonneg fun i _ => by split <;> norm_num
  have hiq : (0 : ℚ) ≤ ∑ i ∈ Finset.range (overlapLen n n t).toNat,
      (if t.toNat + i = q then (1 : ℚ) else 0) :=
    Finset.sum_nonneg fun i _ => by split <;> norm_num
  rw [div_le_iff hL0]
  have h1 : (0 : ℚ) ≤ (1 / (n : ℚ)) *
      (∑ i ∈ Finset.range (overlapLen n n t).toNat, if (-t).toNat + i = p then (1 : ℚ) else 0) := by
    positivity
  have h2 : (0 : ℚ) ≤ (1 / (n : ℚ)) *
      (∑ i ∈ Finset.range (overlapLen n n t).toNat, if t.toNat + i = q then (1 : ℚ) else 0) := by
    positivity
  have h3 : ((overlapLen n n t).toNat : ℚ) * (1 / (n : ℚ)) ^ 2 =
      1 / (n : ℚ) ^ 2 * ((overlapLen n n t).toNat : ℚ) := by ring
  linarith

/-- At the true shift the two spikes align, pushing the candidate score
strictly above the baseline `1/n²` (this needs `n ≥ 3`). -/
theorem scoreAt_spike_aligned (n p q : ℕ) (hn : 3 ≤ n) (hp : p < n) (hq : q < n) :
    ∃ v : ℚ, scoreAt (centered (spike n p)) (centered (spike n q)) ((q : ℤ) - (p : ℤ)) =
        (v : WithBot ℚ) ∧ 1 / ((n : ℚ)) ^ 2 < v := by
  have hov : 0 < overlapLen n n ((q : ℤ) - (p : ℤ)) := by
    unfold overlapLen
    omega
  obtain ⟨hLpos, hsaL, hsbL, hts⟩ := overlap_facts n ((q : ℤ) - (p : ℤ)) hov
  have hsap : (-(((q : ℤ) - (p : ℤ)))).toNat ≤ p := by omega
  have hsbq : ((q : ℤ) - (p : ℤ)).toNat ≤ q := by omega
  have hpL : p < (-(((q : ℤ) - (p : ℤ)))).toNat + (overlapLen n n ((q : ℤ) - (p : ℤ))).toNat := by
    unfold overlapLen at *
    omega
  have hqL : q < ((q : ℤ) - (p : ℤ)).toNat + (overlapLen n n ((q : ℤ) - (p : ℤ))).toNat := by
    unfold overlapLen at *
    omega
  unfold scoreAt
  rw [centered_spike_length, centered_spike_length, if_pos hov]
  refine ⟨_, rfl, ?_⟩
  have hcast : ((overlapLen n n ((q : ℤ) - (p : ℤ)) : ℤ) : ℚ) =
      ((overlapLen n n ((q : ℤ) - (p : ℤ))).toNat : ℚ) := by
    exact_mod_cast (congrArg (fun (z : ℤ) => (z : ℚ)) (Int.toNat_of_nonneg (le_of_lt hov))).symm
  rw [hcast, spike_sum_expand n p q hp hq _ _ _ hsaL hsbL]
  have haligned : (∑ i ∈ Finset.range (overlapLen n n ((q : ℤ) - (p : ℤ))).toNat,
      (if (-(((q : ℤ) - (p : ℤ)))).toNat + i = p then (1 : ℚ) else 0) *
        (if ((q : ℤ) - (p : ℤ)).toNat + i = q then (1 : ℚ) else 0)) =
      ∑ i ∈ Finset.range (overlapLen n n ((q : ℤ) - (p : ℤ))).toNat,
        (if (-(((q : ℤ) - (p : ℤ)))).toNat + i = p then (1 : ℚ) else 0) := by
    refine Finset.sum_congr rfl fun i _ => ?_
    by_cases c1 : (-(((q : ℤ) - (p : ℤ)))).toNat + i = p
    · have c2 : ((q : ℤ) - (p : ℤ)).toNat + i = q := by omega
      rw [if_pos c1, if_pos c2, mul_one]
    · rw [if_neg c1, zero_mul]
  rw [haligned, sum_indicator_shift, sum_indicator_shift,
    if_pos ⟨hsap, hpL⟩, if_pos ⟨hsbq, hqL⟩]
  have hn0 : (0 : ℚ) < (n : ℚ) := by exact_mod_cast (by omega : 0 < n)
  have hL0 : (0 : ℚ) < ((overlapLen n n ((q : ℤ) - (p : ℤ))).toNat : ℚ) := by
    exact_mod_cast hLpos
  rw [lt_div_iff hL0]
  have h2n : (2 : ℚ) / (n : ℚ) < 1 := by
    rw [div_lt_one hn0]
    exact_mod_cast (by omega : 2 < n)
  have h3 : ((overlapLen n n ((q : ℤ) - (p : ℤ))).toNat : ℚ) * (1 / (n : ℚ)) ^ 2 =
      1 / (n : ℚ) ^ 2 * ((overlapLen n n ((q : ℤ) - (p : ℤ))).toNat : ℚ) := by ring
  have h4 : (1 / (n : ℚ)) * 1 + (1 / (n : ℚ)) * 1 = 2 / (n : ℚ) := by ring
  linarith

/-- The true shift is the unique strict maximiser of the candidate scores for
a shifted spike pair. -/
theorem spike_strict_max (n p q : ℕ) (hn : 3 ≤ n) (hp : p < n) (hq : q < n) (t : ℤ)
    (htk : t ≠ (q : ℤ) - (p : ℤ)) :
    scoreAt (centered (spike n p)) (centered (spike n q)) t <
      scoreAt (centered (spike n p)) (centered (spike n q)) ((q : ℤ) - (p : ℤ)) := by
  obtain ⟨vk, hvk, hvkgt⟩ := scoreAt_spike_aligned n p q hn hp hq
  rw [hvk]
  by_cases hov : 0 < overlapLen n n t
  · obtain ⟨vt, hvt, hvtle⟩ := scoreAt_spike_unaligned n p q hn hp hq t htk hov
    rw [hvt, WithBot.coe_lt_coe]
    linarith
  · have hbot : scoreAt (centered (spike n p)) (centered (spike n q)) t = ⊥ := by
      unfold scoreAt
      rw [centered_spike_length, centered_spike_length, if_neg hov]
    rw [hbot]
    exact WithBot.bot_lt_coe _

/-! ## Claims C2, C4, C5 and C8: properties of `findBestOffset` -/

/-- Claim C4: for a single-spike energy series of length `n ≥ 3` and its copy
shifted by exactly `k = q - p` hops (both spikes in range), with the shift
inside the search window, `findBestOffset` recovers the injected offset
exactly: `offsetMs = k * hopMs`. -/
theorem c4_shifted_spike_recovery (n p q : ℕ) (hopMs : ℚ) (hn : 3 ≤ n) (hp : p < n)
    (hq : q < n) (hh : 0 < hopMs) (hwin : ((q : ℤ) - (p : ℤ)) ∈ window hopMs) :
    (findBestOffset (castList (spike n p)) (castList (spike n q)) hopMs).offsetMs =
      (((q : ℤ) - (p : ℤ) : ℤ) : ℚ) * hopMs := by
  rw [findBestOffset_offsetMs_castList]
  obtain ⟨vk, hvk, _⟩ := scoreAt_spike_aligned n p q hn hp hq
  have hkne : scoreAt (centered (spike n p)) (centered (spike n q)) ((q : ℤ) - (p : ℤ)) ≠ ⊥ := by
    rw [hvk]
    exact WithBot.coe_ne_bot
  have hfold := bestFold_argmax hopMs (scoreAt (centered (spike n p)) (centered (spike n q)))
    (window hopMs) ⟨0, ⊥⟩ ((q : ℤ) - (p : ℤ)) hwin
    (fun t _ htne => spike_strict_max n p q hn hp hq t htne)
    (WithBot.bot_lt_iff_ne_bot.mpr hkne)
  unfold findBestOffsetQ
  rw [hfold]

/-- Claim C4 witness instance: `n = 3`, spike at 0 shifted to 1, hop 450000 ms
(shift of one hop, inside the ±2-step window). -/
theorem c4_witness :
    (findBestOffset (castList (spike 3 0)) (castList (spike 3 1)) 450000).offsetMs =
      ((((1 : ℕ) : ℤ) - ((0 : ℕ) : ℤ) : ℤ) : ℚ) * 450000 :=
  c4_shifted_spike_recovery 3 0 1 450000 (by norm_num) (by norm_num) (by norm_num)
    (by norm_num)
    (by norm_num [window, maxStepsFor, ALIGN_MAX_OFFSET_MS, List.range_succ,
      show ((2 : ℤ).toNat) = 2 from rfl])

/-- Claim C2, counterexample: on the constant series `[1, 1]` correlated with
itself at hop 900000 ms, `findBestOffset` publishes offset `-900000`, not `0`
(the std-floor makes every normalised value 0, all overlapping candidates tie
with score 0, and the strictly-greater comparison keeps the earliest candidate,
step `-1`). -/
theorem c2_counterexample :
    (findBestOffset [(1 : ℝ), 1] [(1 : ℝ), 1] 900000).offsetMs ≠ 0 := by
  have hcast : ([(1 : ℝ), 1] : List ℝ) = castList [1, 1] := by
    norm_num [castList]
  rw [hcast, findBestOffset_offsetMs_castList]
  norm_num [findBestOffsetQ, bestFold, window, maxStepsFor, ALIGN_MAX_OFFSET_MS,
    List.range_succ, scoreAt, overlapLen, centered, listMean,
    Finset.sum_range_succ, WithBot.bot_lt_coe, lt_self_iff_false,
    ← WithBot.coe_zero, WithBot.coe_lt_coe,
    show ((2 : ℤ).toNat) = 2 from rfl, show ((1 : ℤ).toNat) = 1 from rfl,
    show ((-1 : ℤ).toNat) = 0 from rfl]

/-- Claim C2 (amended): for every nonempty energy series and positive hop,
`findBestOffset(series, series, hopMs)` returns the maximum score attained by
any candidate step in the search window, realised at the published offset; the
published offset, however, need not be `0` (ties keep the earliest candidate,
see the counterexample). -/
theorem c2_self_correlation_max_score (a : List ℝ) (hopMs : ℚ)
    (ha : a ≠ []) (hh : 0 < hopMs) :
    (∀ t ∈ window hopMs,
        scoreAt (normalizeSeries a) (normalizeSeries a) t ≤ (findBestOffset a a hopMs).score) ∧
      ∃ t ∈ window hopMs,
        (findBestOffset a a hopMs).offsetMs = (t : ℚ) * hopMs ∧
          (findBestOffset a a hopMs).score = scoreAt (normalizeSeries a) (normalizeSeries a) t := by
  unfold findBestOffset
  constructor
  · intro t ht
    exact bestFold_le_score hopMs _ (window hopMs) ⟨0, ⊥⟩ t ht
  · have hov : 0 < overlapLen (normalizeSeries a).length (normalizeSeries a).length 0 := by
      unfold overlapLen
      rw [normalizeSeries_length]
      have : 0 < a.length := List.length_pos.mpr ha
      simp only [neg_zero, Int.toNat_zero, Int.natCast_zero, sub_zero, min_self]
      exact_mod_cast this
    have h0 : scoreAt (normalizeSeries a) (normalizeSeries a) 0 ≠ ⊥ := by
      unfold scoreAt
      rw [if_pos hov]
      exact WithBot.coe_ne_bot
    have hle := bestFold_le_score hopMs (scoreAt (normalizeSeries a) (normalizeSeries a))
      (window hopMs) ⟨0, ⊥⟩ 0 (zero_mem_window hopMs)
    rcases bestFold_eq_init_or_mem hopMs (scoreAt (normalizeSeries a) (normalizeSeries a))
        (window hopMs) ⟨0, ⊥⟩ with h | ⟨t, ht, h⟩
    · exfalso
      rw [h] at hle
      exact h0 (le_bot_iff.mp hle)
    · exact ⟨t, ht, by rw [h], by rw [h]⟩

/-- Claim C2 witness instance: the singleton series `[1]` at hop 100 ms. -/
theorem c2_witness :
    (∀ t ∈ window 100,
        scoreAt (normalizeSeries [(1 : ℝ)]) (normalizeSeries [(1 : ℝ)]) t ≤
          (findBestOffset [(1 : ℝ)] [(1 : ℝ)] 100).score) ∧
      ∃ t ∈ window 100,
        (findBestOffset [(1 : ℝ)] [(1 : ℝ)] 100).offsetMs = (t : ℚ) * 100 ∧
          (findBestOffset [(1 : ℝ)] [(1 : ℝ)] 100).score =
            scoreAt (normalizeSeries [(1 : ℝ)]) (normalizeSeries [(1 : ℝ)]) t :=
  c2_self_correlation_max_score [(1 : ℝ)] 100 (by simp) (by norm_num)

/-- Claim C5: a candidate step with empty overlap scores `-∞`; whenever some
candidate has positive overlap the published result is such a candidate (so a
zero-overlap candidate is never selected over one with overlap) and its score
is not `-∞`; and when no candidate has positive overlap the published result is
offset `0` with score `-∞`. -/
theorem c5_zero_overlap (a b : List ℝ) (hopMs : ℚ) (hh : 0 < hopMs) :
    (∀ t ∈ window hopMs, ¬ 0 < overlapLen a.length b.length t →
        scoreAt (normalizeSeries a) (normalizeSeries b) t = ⊥) ∧
      ((∃ t ∈ window hopMs, 0 < overlapLen a.length b.length t) →
        ∃ t ∈ window hopMs, 0 < overlapLen a.length b.length t ∧
          findBestOffset a b hopMs =
            ⟨(t : ℚ) * hopMs, scoreAt (normalizeSeries a) (normalizeSeries b) t⟩ ∧
          (findBestOffset a b hopMs).score ≠ ⊥) ∧
      ((∀ t ∈ window hopMs, ¬ 0 < overlapLen a.length b.length t) →
        findBestOffset a b hopMs = ⟨0, ⊥⟩) := by
  have hbot : ∀ t, ¬ 0 < overlapLen a.length b.length t →
      scoreAt (normalizeSeries a) (normalizeSeries b) t = ⊥ := by
    intro t hnn
    unfold scoreAt
    rw [normalizeSeries_length, normalizeSeries_length, if_neg hnn]
  refine ⟨fun t _ h => hbot t h, ?_, ?_⟩
  · rintro ⟨t0, ht0, hov0⟩
    have h0 : scoreAt (normalizeSeries a) (normalizeSeries b) t0 ≠ ⊥ := by
      unfold scoreAt
      rw [normalizeSeries_length, normalizeSeries_length, if_pos hov0]
      exact WithBot.coe_ne_bot
    have hle := bestFold_le_score hopMs (scoreAt (normalizeSeries a) (normalizeSeries b))
      (window hopMs) ⟨0, ⊥⟩ t0 ht0
    have hne : (findBestOffset a b hopMs).score ≠ ⊥ := by
      unfold findBestOffset
      intro hb
      rw [hb] at hle
      exact h0 (le_bot_iff.mp hle)
    rcases bestFold_eq_init_or_mem hopMs (scoreAt (normalizeSeries a) (normalizeSeries b))
        (window hopMs) ⟨0, ⊥⟩ with h | ⟨t, ht, h⟩
    · exfalso
      apply hne
      unfold findBestOffset
      rw [h]
    · refine ⟨t, ht, ?_, ?_, hne⟩
      · by_contra hstep
        apply hne
        unfold findBestOffset
        rw [h]
        exact hbot t hstep
      · unfold findBestOffset
        rw [h]
  · intro hall
    have : ∀ t ∈ window hopMs,
        ¬ (⟨0, ⊥⟩ : OffsetResult ℝ).score < scoreAt (normalizeSeries a) (normalizeSeries b) t := by
      intro t ht
      rw [hbot t (hall t ht)]
      exact lt_irrefl _
    unfold findBestOffset
    exact bestFold_no_update hopMs _ (window hopMs) ⟨0, ⊥⟩ this

/-- Claim C5 witness instance: two empty series at hop 100 ms (no candidate has
overlap, so the published result is offset 0 with score `-∞`). -/
theorem c5_witness :
    (∀ t ∈ window 100, ¬ 0 < overlapLen ([] : List ℝ).length ([] : List ℝ).length t →
        scoreAt (normalizeSeries []) (normalizeSeries []) t = ⊥) ∧
      ((∃ t ∈ window 100, 0 < overlapLen ([] : List ℝ).length ([] : List ℝ).length t) →
        ∃ t ∈ window 100, 0 < overlapLen ([] : List ℝ).length ([] : List ℝ).length t ∧
          findBestOffset ([] : List ℝ) ([] : List ℝ) 100 =
            ⟨(t : ℚ) * 100, scoreAt (normalizeSeries []) (normalizeSeries []) t⟩ ∧
          (findBestOffset ([] : List ℝ) ([] : List ℝ) 100).score ≠ ⊥) ∧
      ((∀ t ∈ window 100, ¬ 0 < overlapLen ([] : List ℝ).length ([] : List ℝ).length t) →
        findBestOffset ([] : List ℝ) ([] : List ℝ) 100 = ⟨0, ⊥⟩) :=
  c5_zero_overlap [] [] 100 (by norm_num)

/-- Claim C8, counterexample: with `A = [1, 1]`, `B = [2, 2, 2]` and hop
900000 ms (both series constant, every overlapping candidate ties at score 0,
and both scan orders keep the earliest candidate `-1`), the published offsets
are both `-900000`, so the antisymmetry discrepancy is two hops, not at most
one. -/
theorem c8_counterexample :
    ¬ |(findBestOffset [(1 : ℝ), 1] [(2 : ℝ), 2, 2] 900000).offsetMs -
        (-(findBestOffset [(2 : ℝ), 2, 2] [(1 : ℝ), 1] 900000).offsetMs)| ≤ 900000 := by
  have hcast1 : ([(1 : ℝ), 1] : List ℝ) = castList [1, 1] := by norm_num [castList]
  have hcast2 : ([(2 : ℝ), 2, 2] : List ℝ) = castList [2, 2, 2] := by norm_num [castList]
  rw [hcast1, hcast2, findBestOffset_offsetMs_castList, findBestOffset_offsetMs_castList]
  have h1 : (findBestOffsetQ [1, 1] [2, 2, 2] 900000).offsetMs = -900000 := by
    norm_num [findBestOffsetQ, bestFold, window, maxStepsFor, ALIGN_MAX_OFFSET_MS,
      List.range_succ, scoreAt, overlapLen, centered, listMean,
      Finset.sum_range_succ, WithBot.bot_lt_coe, lt_self_iff_false,
      ← WithBot.coe_zero, WithBot.coe_lt_coe,
      show ((2 : ℤ).toNat) = 2 from rfl, show ((1 : ℤ).toNat) = 1 from rfl,
      show ((-1 : ℤ).toNat) = 0 from rfl, show ((3 : ℤ).toNat) = 3 from rfl]
  have h2 : (findBestOffsetQ [2, 2, 2] [1, 1] 900000).offsetMs = -900000 := by
    norm_num [findBestOffsetQ, bestFold, window, maxStepsFor, ALIGN_MAX_OFFSET_MS,
      List.range_succ, scoreAt, overlapLen, centered, listMean,
      Finset.sum_range_succ, WithBot.bot_lt_coe, lt_self_iff_false,
      ← WithBot.coe_zero, WithBot.coe_lt_coe,
      show ((2 : ℤ).toNat) = 2 from rfl, show ((1 : ℤ).toNat) = 1 from rfl,
      show ((-1 : ℤ).toNat) = 0 from rfl, show ((3 : ℤ).toNat) = 3 from rfl]
  rw [h1, h2]
  norm_num

/-- Claim C8 (amended): when the candidate scores have a unique strict
maximiser over the window (stated on the order-equivalent centered rational
scores), the published offsets of the two scan orders are exact negatives of
each other; without that uniqueness, ties are broken towards the earliest
candidate in both orders and the discrepancy can exceed one hop (see the
counterexample). -/
theorem c8_antisymmetry (a b : List ℚ) (hopMs : ℚ) (hh : 0 < hopMs)
    (tstar : ℤ) (ht : tstar ∈ window hopMs)
    (hne : scoreAt (centered a) (centered b) tstar ≠ ⊥)
    (hmax : ∀ t ∈ window hopMs, t ≠ tstar →
      scoreAt (centered a) (centered b) t < scoreAt (centered a) (centered b) tstar) :
    (findBestOffset (castList a) (castList b) hopMs).offsetMs = (tstar : ℚ) * hopMs ∧
      (findBestOffset (castList b) (castList a) hopMs).offsetMs =
        -((tstar : ℚ) * hopMs) ∧
      (findBestOffset (castList a) (castList b) hopMs).offsetMs =
        -(findBestOffset (castList b) (castList a) hopMs).offsetMs := by
  have hbotlt : (⊥ : WithBot ℚ) < scoreAt (centered a) (centered b) tstar :=
    WithBot.bot_lt_iff_ne_bot.mpr hne
  have hAB : findBestOffsetQ a b hopMs =
      ⟨(tstar : ℚ) * hopMs, scoreAt (centered a) (centered b) tstar⟩ := by
    unfold findBestOffsetQ
    exact bestFold_argmax hopMs _ (window hopMs) ⟨0, ⊥⟩ tstar ht hmax hbotlt
  have hswapfun : ∀ t, scoreAt (centered b) (centered a) t =
      scoreAt (centered a) (centered b) (-t) := fun t => scoreAt_swap _ _ t
  have hBA : findBestOffsetQ b a hopMs =
      ⟨((-tstar : ℤ) : ℚ) * hopMs, scoreAt (centered b) (centered a) (-tstar)⟩ := by
    unfold findBestOffsetQ
    refine bestFold_argmax hopMs _ (window hopMs) ⟨0, ⊥⟩ (-tstar)
      (window_neg_mem hopMs tstar ht) ?_ ?_
    · intro t htm htne
      rw [hswapfun t, hswapfun (-tstar), neg_neg]
      exact hmax (-t) (window_neg_mem hopMs t htm) (fun hc => htne (by omega))
    · rw [hswapfun (-tstar), neg_neg]
      exact hbotlt
  refine ⟨?_, ?_, ?_⟩
  · rw [findBestOffset_offsetMs_castList, hAB]
  · rw [findBestOffset_offsetMs_castList, hBA]
    push_cast
    ring
  · rw [findBestOffset_offsetMs_castList, findBestOffset_offsetMs_castList, hAB, hBA]
    push_cast
    ring

/-- Claim C8 witness instance: a one-hop-shifted spike pair at hop 450000 ms,
whose maximiser (step 1) is strictly unique. -/
theorem c8_witness :
    (findBestOffset (castList [1, 0, 0]) (castList [0, 1, 0]) 450000).offsetMs =
        ((1 : ℤ) : ℚ) * 450000 ∧
      (findBestOffset (castList [0, 1, 0]) (castList [1, 0, 0]) 450000).offsetMs =
        -(((1 : ℤ) : ℚ) * 450000) ∧
      (findBestOffset (castList [1, 0, 0]) (castList [0, 1, 0]) 450000).offsetMs =
        -(findBestOffset (castList [0, 1, 0]) (castList [1, 0, 0]) 450000).offsetMs := by
  refine c8_antisymmetry [1, 0, 0] [0, 1, 0] 450000 (by norm_num) 1 ?_ ?_ ?_
  · norm_num [window, maxStepsFor, ALIGN_MAX_OFFSET_MS, List.range_succ,
      show ((2 : ℤ).toNat) = 2 from rfl]
  · rw [show scoreAt (centered [1, 0, 0]) (centered [0, 1, 0]) 1 = ((5/18 : ℚ) : WithBot ℚ) from by
      norm_num [scoreAt, overlapLen, centered, listMean, Finset.sum_range_succ,
        show ((2 : ℤ).toNat) = 2 from rfl, show ((1 : ℤ).toNat) = 1 from rfl,
        show ((-1 : ℤ).toNat) = 0 from rfl, show ((3 : ℤ).toNat) = 3 from rfl]]
    exact WithBot.coe_ne_bot
  · have hw : window 450000 = [-2, -1, 0, 1, 2] := by
      norm_num [window, maxStepsFor, ALIGN_MAX_OFFSET_MS, List.range_succ,
        show ((2 : ℤ).toNat) = 2 from rfl]
    rw [hw]
    intro t ht htne
    fin_cases ht <;>
      norm_num [scoreAt, overlapLen, centered, listMean, Finset.sum_range_succ,
        ← WithBot.coe_zero, WithBot.coe_lt_coe,
        show ((2 : ℤ).toNat) = 2 from rfl, show ((1 : ℤ).toNat) = 1 from rfl,
        show ((-1 : ℤ).toNat) = 0 from rfl, show ((3 : ℤ).toNat) = 3 from rfl,
        show ((-2 : ℤ).toNat) = 0 from rfl] at htne ⊢

/-! ## Subtitle-slot fitter (source: `ensureClipFitsSubtitleSlot`)

The renderer-side fitter measures a clip, optionally recovers once from a
failed measurement via the `onInvalidDuration` callback, and requests at most
one faster re-synthesis.  External capabilities (the `system:getAudioDuration`
IPC query, the recovery callback, `saveToFile` and `hashKey`) are modelled as
oracles in a `FitEnv`; JavaScript truthiness of the optional fields is modelled
explicitly. -/

/-- Result shape of the `system:getAudioDuration` handler:
`{ duration }` on success (possibly `0` when the tool output cannot be
parsed), `{ error }` when the query throws. -/
structure DurationResult where
  duration : Option ℚ := none
  error : Option String := none
  deriving DecidableEq

/-- Result shape of `saveToFile` (the injected synthesis capability). -/
structure SaveResult where
  error : Option String := none
  path : Option String := none
  deriving DecidableEq

/-- JS truthiness of an optional string field (`undefined` and `""` are
falsy). -/
def optTruthy : Option String → Bool
  | none => false
  | some s => s ≠ ""

/-- JS truthiness of a string (`""` is falsy). -/
def strTruthy (s : String) : Bool := s ≠ ""

/-- The capabilities consumed by the fitter.  `onInvalidDuration = some r`
models a supplied recovery callback that resolves to `r`; `none` models an
absent callback. -/
structure FitEnv where
  getAudioDuration : String → DurationResult
  onInvalidDuration : Option String
  saveToFile : String → String → ℚ → SaveResult
  hashKey : String → String

/-- Observable outcome of one fitter call: the returned clip path, the list of
re-synthesis speeds requested (in order), and how many times the recovery
callback was invoked. -/
structure FitResult where
  path : String
  synthRequests : List ℚ
  recoveryCalls : ℕ
  deriving DecidableEq

/-- The target path `${cacheDir}/${hash}.mp3` of a re-synthesis request. -/
def fitTargetPath (env : FitEnv) (cacheKey cacheDir : String) (speed : ℚ) : String :=
  cacheDir ++ "/" ++ env.hashKey (cacheKey ++ "|speed|" ++ toString speed) ++ ".mp3"

/-- The fitter's measurement phase (`getAudioDuration`, then
`if (durationResult.error && onInvalidDuration)` recover once and re-query):
returns the current clip path, the duration result in force, and the number of
recovery-callback invocations. -/
def fitMeasure (env : FitEnv) (baseClipPath : String) : String × DurationResult × ℕ :=
  let r0 := env.getAudioDuration baseClipPath
  if optTruthy r0.error && env.onInvalidDuration.isSome then
    let refreshedPath := env.onInvalidDuration.getD ""
    if strTruthy refreshedPath then
      (refreshedPath, env.getAudioDuration refreshedPath, 1)
    else (baseClipPath, r0, 1)
  else (baseClipPath, r0, 0)

/-- The fitter's decision phase: derive `durationMs` (JS `0` is falsy, so an
unparsable duration means "unknown"), compare against the slot with the 2%
tolerance, and request at most one re-synthesis at speed capped to 4. -/
def fitChoose (env : FitEnv) (startTime endTime baseSpeed : ℚ)
    (cacheKey cacheDir textForTts : String) (m : String × DurationResult × ℕ) : FitResult :=
  let finalPath := m.1
  let recov := m.2.2
  let durationMs : Option ℚ :=
    match (m.2.1).duration with
    | some d => if d ≠ 0 then some (d * 1000) else none
    | none => none
  match durationMs with
  | none => ⟨finalPath, [], recov⟩
  | some dms =>
    let slotMs := max 1 (endTime - startTime)
    let rto := dms / slotMs
    if rto ≤ 102 / 100 then ⟨finalPath, [], recov⟩
    else
      let neededSpeed := min (baseSpeed * rto) 4
      if neededSpeed ≤ baseSpeed + 1 / 100 then ⟨finalPath, [], recov⟩
      else
        let targetPath := fitTargetPath env cacheKey cacheDir neededSpeed
        let fasterResult := env.saveToFile textForTts targetPath neededSpeed
        if !(optTruthy fasterResult.error) && optTruthy fasterResult.path then
          ⟨fasterResult.path.getD "", [neededSpeed], recov⟩
        else ⟨finalPath, [neededSpeed], recov⟩

/-- `ensureClipFitsSubtitleSlot`, translated line by line.  `startTime` and
`endTime` are the subtitle slot bounds in milliseconds, `baseSpeed` the current
speed factor. -/
def ensureClipFitsSubtitleSlot (env : FitEnv) (baseClipPath : String)
    (startTime endTime baseSpeed : ℚ) (cacheKey cacheDir textForTts : String) : FitResult :=
  fitChoose env startTime endTime baseSpeed cacheKey cacheDir textForTts
    (fitMeasure env baseClipPath)

theorem fitChoose_recoveryCalls (env : FitEnv) (st et bs : ℚ) (ck cd txt : String)
    (m : String × DurationResult × ℕ) :
    (fitChoose env st et bs ck cd txt m).recoveryCalls = m.2.2 := by
  unfold fitChoose
  dsimp only
  repeat' split
  all_goals rfl

theorem fitMeasure_recoveryCalls (env : FitEnv) (clip : String) :
    (fitMeasure env clip).2.2 =
      if optTruthy (env.getAudioDuration clip).error && env.onInvalidDuration.isSome
      then 1 else 0 := by
  unfold fitMeasure
  dsimp only
  split
  case isTrue h => split <;> rfl
  case isFalse h => rfl

theorem fit_recoveryCalls (env : FitEnv) (clip : String) (st et bs : ℚ)
    (ck cd txt : String) :
    (ensureClipFitsSubtitleSlot env clip st et bs ck cd txt).recoveryCalls =
      if optTruthy (env.getAudioDuration clip).error && env.onInvalidDuration.isSome
      then 1 else 0 := by
  unfold ensureClipFitsSubtitleSlot
  rw [fitChoose_recoveryCalls, fitMeasure_recoveryCalls]

/-- Claim C9: when the first duration query succeeds with a nonzero duration
and the measured clip fits the slot within the 2% tolerance
(`durationMs / slotMs ≤ 1.02`), the fitter returns the original clip path
unchanged, makes no re-synthesis request and never invokes the recovery
callback. -/
theorem c9_near_fit_returns_original (env : FitEnv) (clip : String) (st et bs : ℚ)
    (ck cd txt : String) (d : ℚ)
    (hdur : env.getAudioDuration clip = ⟨some d, none⟩)
    (hd0 : d ≠ 0)
    (hfit : d * 1000 / max 1 (et - st) ≤ 102 / 100) :
    ensureClipFitsSubtitleSlot env clip st et bs ck cd txt = ⟨clip, [], 0⟩ := by
  unfold ensureClipFitsSubtitleSlot fitMeasure fitChoose
  rw [hdur]
  dsimp only
  rw [if_neg (by simp [optTruthy])]
  dsimp only
  rw [if_pos hd0]
  dsimp only
  rw [if_pos hfit]

/-- Claim C7: when the measured clip overruns the slot beyond the 2%
tolerance, the fitter computes `neededSpeed = min(baseSpeed * ratio, 4)`; if
that is meaningfully faster than `baseSpeed` (more than `+ 0.01`) it makes
exactly one re-synthesis request, at `neededSpeed` (hence never above 4), and
falls back to the original clip path when that request fails; otherwise it
makes no request and returns the original clip path. -/
theorem c7_overrun_one_resynthesis (env : FitEnv) (clip : String) (st et bs : ℚ)
    (ck cd txt : String) (d : ℚ)
    (hdur : env.getAudioDuration clip = ⟨some d, none⟩)
    (hd0 : d ≠ 0)
    (hover : ¬ d * 1000 / max 1 (et - st) ≤ 102 / 100) :
    (¬ min (bs * (d * 1000 / max 1 (et - st))) 4 ≤ bs + 1 / 100 →
        (ensureClipFitsSubtitleSlot env clip st et bs ck cd txt).synthRequests =
            [min (bs * (d * 1000 / max 1 (et - st))) 4] ∧
          min (bs * (d * 1000 / max 1 (et - st))) 4 ≤ 4 ∧
          ((!(optTruthy (env.saveToFile txt
                (fitTargetPath env ck cd (min (bs * (d * 1000 / max 1 (et - st))) 4))
                (min (bs * (d * 1000 / max 1 (et - st))) 4)).error) &&
              optTruthy (env.saveToFile txt
                (fitTargetPath env ck cd (min (bs * (d * 1000 / max 1 (et - st))) 4))
                (min (bs * (d * 1000 / max 1 (et - st))) 4)).path) = false →
            (ensureClipFitsSubtitleSlot env clip st et bs ck cd txt).path = clip)) ∧
      (min (bs * (d * 1000 / max 1 (et - st))) 4 ≤ bs + 1 / 100 →
        ensureClipFitsSubtitleSlot env clip st et bs ck cd txt = ⟨clip, [], 0⟩) := by
  constructor
  · intro hfaster
    unfold ensureClipFitsSubtitleSlot fitMeasure fitChoose
    rw [hdur]
    dsimp only
    rw [if_neg (by simp [optTruthy])]
    dsimp only
    rw [if_pos hd0]
    dsimp only
    rw [if_neg hover, if_neg hfaster]
    refine ⟨?_, min_le_right _ _, fun hfail => ?_⟩
    · split <;> rfl
    · rw [hfail]
      rfl
  · intro hslow
    unfold ensureClipFitsSubtitleSlot fitMeasure fitChoose
    rw [hdur]
    dsimp only
    rw [if_neg (by simp [optTruthy])]
    dsimp only
    rw [if_pos hd0]
    dsimp only
    rw [if_neg hover, if_pos hslow]

/-- Claim C10 (implicit): a successful duration query that reports `0` (the
query's "cannot parse" result) makes the fitter return the original clip
unchanged without invoking the recovery callback; the recovery callback is
invoked at most once per call, and only when the first query reports a truthy
error and a callback was supplied. -/
theorem c10_duration_query_policy (env : FitEnv) (clip : String) (st et bs : ℚ)
    (ck cd txt : String) :
    (env.getAudioDuration clip = ⟨some 0, none⟩ →
        ensureClipFitsSubtitleSlot env clip st et bs ck cd txt = ⟨clip, [], 0⟩) ∧
      (ensureClipFitsSubtitleSlot env clip st et bs ck cd txt).recoveryCalls ≤ 1 ∧
      ((ensureClipFitsSubtitleSlot env clip st et bs ck cd txt).recoveryCalls = 1 →
        optTruthy (env.getAudioDuration clip).error = true ∧
          env.onInvalidDuration.isSome = true) := by
  refine ⟨fun hdur => ?_, ?_, fun hone => ?_⟩
  · unfold ensureClipFitsSubtitleSlot fitMeasure fitChoose
    rw [hdur]
    dsimp only
    rw [if_neg (by simp [optTruthy])]
    dsimp only
    rw [if_neg (by simp)]
  · rw [fit_recoveryCalls]
    split <;> omega
  · rw [fit_recoveryCalls] at hone
    by_cases h : (optTruthy (env.getAudioDuration clip).error &&
        env.onInvalidDuration.isSome) = true
    · exact Bool.and_eq_true_iff.mp h
    · rw [if_neg h] at hone
      omega

/-- Concrete fitter environment whose duration query reports 1 second and
whose synthesis capability is never consulted. -/
def fitEnvNear : FitEnv :=
  ⟨fun _ => ⟨some 1, none⟩, none, fun _ _ _ => ⟨none, none⟩, fun s => s⟩

/-- Claim C9 witness instance: a 1-second clip in a 2000 ms slot (ratio 0.5). -/
theorem c9_witness :
    ensureClipFitsSubtitleSlot fitEnvNear "clip.mp3" 0 2000 1 "k" "c" "t" =
      ⟨"clip.mp3", [], 0⟩ :=
  c9_near_fit_returns_original fitEnvNear "clip.mp3" 0 2000 1 "k" "c" "t" 1 rfl
    (by norm_num) (by norm_num)

/-- Concrete fitter environment whose duration query reports 2 seconds and
whose synthesis capability always fails. -/
def fitEnvOver : FitEnv :=
  ⟨fun _ => ⟨some 2, none⟩, none, fun _ _ _ => ⟨some "synthesis failed", none⟩, fun s => s⟩

/-- Claim C7 witness instance: a 2-second clip in a 1000 ms slot (ratio 2,
needed speed 2) whose single re-synthesis request fails, so the original clip
path is returned. -/
theorem c7_witness :
    (ensureClipFitsSubtitleSlot fitEnvOver "clip.mp3" 0 1000 1 "k" "c" "t").synthRequests =
        [min (1 * (2 * 1000 / max 1 (1000 - 0))) 4] ∧
      (ensureClipFitsSubtitleSlot fitEnvOver "clip.mp3" 0 1000 1 "k" "c" "t").path =
        "clip.mp3" := by
  have h := c7_overrun_one_resynthesis fitEnvOver "clip.mp3" 0 1000 1 "k" "c" "t" 2 rfl
    (by norm_num) (by norm_num)
  have h1 := h.1 (by norm_num)
  exact ⟨h1.1, h1.2.2 (by decide)⟩

/-- Concrete fitter environment whose duration query reports the unparsable
result `0`. -/
def fitEnvZero : FitEnv :=
  ⟨fun _ => ⟨some 0, none⟩, none, fun _ _ _ => ⟨none, none⟩, fun s => s⟩

/-- Claim C10 witness instance: a zero-duration (unparsable) measurement
returns the original clip with no recovery call. -/
theorem c10_witness :
    ensureClipFitsSubtitleSlot fitEnvZero "clip.mp3" 0 1000 1 "k" "c" "t" =
        ⟨"clip.mp3", [], 0⟩ ∧
      (ensureClipFitsSubtitleSlot fitEnvZero "clip.mp3" 0 1000 1 "k" "c" "t").recoveryCalls ≤ 1 := by
  have h := c10_duration_query_policy fitEnvZero "clip.mp3" 0 1000 1 "k" "c" "t"
  exact ⟨h.1 rfl, h.2.1⟩

/-! ## Alignment orchestrator (source: the `alignment:run` handler)

The handler drives, per pair: extract both waveforms to temp dirs → profile
both → search the offset → remux → append a report entry → remove both temp
dirs.  External effects are modelled explicitly: every `ffmpeg` spawn is a
`ToolCall` recorded in the run state (the availability probe of `checkFfmpeg`,
one `extract` per `extractAudioToWav`, one `mux` per `muxAligned`), and every
`mkdtempSync`/`rmSync` on an `align-audio-` temp dir is recorded by a fresh
numeric id in `alignDirs`/`removedDirs`.  Decoding and muxing outcomes come
from a `RunEnv` oracle; `decode` returns the extracted pair's energy profile
(the composition of `extractAudioToWav` and `computeEnergyProfile`, whose
fixed hop is 100 ms), `Except.error` being a decode failure. -/

inductive ToolCall where
  | versionProbe
  | extract (input : String)
  | mux (video audio : String) (offsetMs : ℚ)
  deriving DecidableEq

structure ReportEntry where
  title : String
  video : String
  audio : String
  offsetMs : ℤ
  score : WithBot ℝ
  output : String

inductive LogEvent where
  | aligning (video audio : String)
  | bestOffset (offsetMs : ℚ) (score : WithBot ℝ)

structure RunSt where
  calls : List ToolCall
  nextDir : ℕ
  alignDirs : List ℕ
  removedDirs : List ℕ
  outDirCreated : Bool
  logs : List LogEvent
  report : List ReportEntry
  lastOutput : Option String

def initRunSt : RunSt := ⟨[], 0, [], [], false, [], [], none⟩

structure RunEnv where
  ffmpegAvailable : Bool
  decode : String → Except String (List ℚ)
  mux : String → String → Option String

def ffmpegRequiredMsg : String := "FFmpeg is required for alignment."

def inputsRequiredMsg : String := "Video and audio inputs are required."

def analyzeErrorMsg : String := "Could not analyze audio energy (files too short or empty)."

/-- POSIX-style `path.basename`. -/
def basename (s : String) : String := ((s.splitOn "/").getLast?).getD s

/-- POSIX-style `path.dirname`. -/
def dirname (s : String) : String :=
  let parts := s.splitOn "/"
  if parts.length ≤ 1 then "." else String.intercalate "/" parts.dropLast

/-- POSIX-style `path.extname` (a leading dot of a bare dotfile is not an
extension). -/
def extname (s : String) : String :=
  let b := basename s
  let parts := b.splitOn "."
  if parts.length ≤ 1 then ""
  else if parts.length = 2 && (parts.headD "") = "" then ""
  else "." ++ ((parts.getLast?).getD "")

/-- `path.basename(s, suffix)`: strip a trailing suffix when it is a proper
suffix of the basename. -/
def basenameStrip (s sfx : String) : String :=
  let b := basename s
  if sfx ≠ "" && sfx ≠ b && b.endsWith sfx then b.dropRight sfx.length else b

/-- `Math.round` (half away from zero rounds up, as `floor(x + 1/2)`). -/
def jsRound (x : ℚ) : ℤ := ⌊x + 1 / 2⌋

def insertSorted (x : String) : List String → List String
  | [] => [x]
  | y :: ys => if x ≤ y then x :: y :: ys else y :: insertSorted x ys

/-- `[...paths].sort()`: lexicographic string sort. -/
def sortStrings (l : List String) : List String := l.foldr insertSorted []

/-- Per-pair output path: a single supplied path is used verbatim; a shared
supplied path gets a `_<i+1>` suffix before the extension; otherwise the
video's basename is prefixed (default `ad_`) inside the base directory. -/
def deriveOutputPath (provided : Option String) (pairs : ℕ)
    (baseDir baseName video : String) (i : ℕ) : String :=
  match provided with
  | some po =>
    if pairs = 1 then po
    else
      let poExt := extname po
      let ext := if poExt ≠ "" then poExt else if extname video ≠ "" then extname video else ".mp4"
      let name := basenameStrip po (if poExt ≠ "" then poExt else ext)
      baseDir ++ "/" ++ name ++ "_" ++ toString (i + 1) ++ ext
  | none => baseDir ++ "/" ++ baseName ++ basename video

/-- `extractAudioToWav`: probe ffmpeg (a spawn), fail if unavailable; else
create a fresh temp dir, spawn the extraction, and either return the decoded
pair profile or the diagnostic — the created temp dir is not removed here in
either case. -/
def extractAudioToWav (env : RunEnv) (input : String) (st : RunSt) :
    Except String (ℕ × List ℚ) × RunSt :=
  let st1 := { st with calls := st.calls ++ [ToolCall.versionProbe] }
  if env.ffmpegAvailable then
    let dir := st1.nextDir
    let st2 := { st1 with
      nextDir := dir + 1
      alignDirs := st1.alignDirs ++ [dir]
      calls := st1.calls ++ [ToolCall.extract input] }
    match env.decode input with
    | Except.ok es => (Except.ok (dir, es), st2)
    | Except.error msg => (Except.error ("Failed to extract audio: " ++ msg), st2)
  else (Except.error ffmpegRequiredMsg, st1)

/-- One pair of the `alignment:run` loop body, lines 1239–1279 of the handler:
log, extract video audio, extract dub audio, length-check both profiles,
search the offset at the fixed 100 ms hop, mux, then append the report entry
and remove both temp dirs — each failure returns immediately. -/
noncomputable def processPair (env : RunEnv) (video audio outputPath : String)
    (st : RunSt) : Option String × RunSt :=
  let st0 := { st with logs := st.logs ++ [LogEvent.aligning (basename video) (basename audio)] }
  match extractAudioToWav env video st0 with
  | (Except.error e, st1) => (some e, st1)
  | (Except.ok (vDir, vEs), st1) =>
    match extractAudioToWav env audio st1 with
    | (Except.error e, st2) => (some e, st2)
    | (Except.ok (aDir, aEs), st2) =>
      if vEs.length < 5 ∨ aEs.length < 5 then
        (some analyzeErrorMsg, st2)
      else
        let best := findBestOffset (castList vEs) (castList aEs) 100
        let st3 := { st2 with
          logs := st2.logs ++ [LogEvent.bestOffset best.offsetMs best.score]
          calls := st2.calls ++ [ToolCall.mux video audio best.offsetMs] }
        match env.mux video audio with
        | some e => (some e, st3)
        | none =>
          (none, { st3 with
            lastOutput := some outputPath
            report := st3.report ++
              [⟨basename outputPath, video, audio, jsRound best.offsetMs, best.score, outputPath⟩]
            removedDirs := st3.removedDirs ++ [vDir, aDir] })

structure AlignmentRunResult where
  success : Bool
  error : Option String
  outputPath : Option String
  report : List ReportEntry

/-- The pair loop: any pair failure aborts the whole run with that error and
the state as it stands. -/
noncomputable def runPairs (env : RunEnv) (provided : Option String) (pairs : ℕ)
    (baseDir baseName : String) :
    List (ℕ × String × String) → RunSt → AlignmentRunResult × RunSt
  | [], st => (⟨true, none, st.lastOutput, st.report⟩, st)
  | (i, video, audio) :: rest, st =>
    let outputPath := deriveOutputPath provided pairs baseDir baseName video i
    match processPair env video audio outputPath st with
    | (some e, st1) => (⟨false, some e, none, []⟩, st1)
    | (none, st1) => runPairs env provided pairs baseDir baseName rest st1

/-- The `alignment:run` handler: availability probe, upfront input check,
lexicographic pairing (zip of the two sorted lists, truncated to the shorter),
output-path derivation, then the sequential pair loop. -/
noncomputable def alignmentRun (env : RunEnv) (videoPaths audioPaths : List String)
    (outputPath prepend : Option String) : AlignmentRunResult × RunSt :=
  let st0 : RunSt := { initRunSt with calls := [ToolCall.versionProbe] }
  if env.ffmpegAvailable then
    if videoPaths = [] ∨ audioPaths = [] then
      (⟨false, some inputsRequiredMsg, none, []⟩, st0)
    else
      let videos := sortStrings videoPaths
      let audios := sortStrings audioPaths
      let pairs := min videos.length audios.length
      let provided :=
        match outputPath with
        | some p => if (p.trim).length ≠ 0 then some p else none
        | none => none
      let withDir :=
        match provided with
        | some p => (dirname p, st0)
        | none => ("align-output", { st0 with outDirCreated := true })
      let baseName :=
        match prepend with
        | some p => if p ≠ "" then p else "ad_"
        | none => "ad_"
      runPairs env provided pairs withDir.1 baseName ((videos.zip audios).enum) withDir.2
  else (⟨false, some ffmpegRequiredMsg, none, []⟩, st0)

/-! ### State-evolution facts about the orchestrator -/

def isMuxCall : ToolCall → Bool
  | ToolCall.mux _ _ _ => true
  | _ => false

/-- Number of remux invocations recorded in a call log. -/
def muxCalls (calls : List ToolCall) : ℕ := (calls.filter isMuxCall).length

theorem extract_eval_ok (env : RunEnv) (input : String) (st : RunSt) (es : List ℚ)
    (hav : env.ffmpegAvailable = true) (hdec : env.decode input = Except.ok es) :
    extractAudioToWav env input st =
      (Except.ok (st.nextDir, es),
        { st with
          nextDir := st.nextDir + 1
          alignDirs := st.alignDirs ++ [st.nextDir]
          calls := (st.calls ++ [ToolCall.versionProbe]) ++ [ToolCall.extract input] }) := by
  unfold extractAudioToWav
  rw [hav]
  dsimp only
  rw [hdec]
  rfl

theorem extract_removedDirs (env : RunEnv) (input : String) (st : RunSt) :
    (extractAudioToWav env input st).2.removedDirs = st.removedDirs := by
  unfold extractAudioToWav
  dsimp only
  split
  · split <;> rfl
  · rfl

theorem extract_report (env : RunEnv) (input : String) (st : RunSt) :
    (extractAudioToWav env input st).2.report = st.report := by
  unfold extractAudioToWav
  dsimp only
  split
  · split <;> rfl
  · rfl

theorem extract_mux_subset (env : RunEnv) (input : String) (st : RunSt) (v a : String)
    (off : ℚ) (h : ToolCall.mux v a off ∈ (extractAudioToWav env input st).2.calls) :
    ToolCall.mux v a off ∈ st.calls := by
  unfold extractAudioToWav at h
  dsimp only at h
  rcases hsplit : env.ffmpegAvailable with _ | _ <;> rw [hsplit] at h
  · simp only [Bool.false_eq_true, if_false] at h
    rcases List.mem_append.mp h with h1 | h2
    · exact h1
    · simp at h2
  · simp only [if_true] at h
    split at h <;>
      · rcases List.mem_append.mp h with h1 | h2
        · rcases List.mem_append.mp h1 with h3 | h4
          · exact h3
          · simp at h4
        · simp at h2

theorem extract_ok_decode (env : RunEnv) (input : String) (st : RunSt) (dir : ℕ)
    (es : List ℚ) (st' : RunSt)
    (h : extractAudioToWav env input st = (Except.ok (dir, es), st')) :
    env.decode input = Except.ok es ∧ st'.alignDirs.length = st.alignDirs.length + 1 := by
  unfold extractAudioToWav at h
  dsimp only at h
  split at h
  case isTrue hav =>
    split at h
    case h_1 es' heq =>
      injection h with h1 h2
      injection h1 with h3
      injection h3 with h4 h5
      subst h5
      subst h2
      exact ⟨heq, by simp⟩
    case h_2 msg heq =>
      injection h with h1 h2
      exact absurd h1 (by simp)
  case isFalse hav =>
    injection h with h1 h2
    exact absurd h1 (by simp)

/-- Per-pair state evolution: a failing pair removes nothing and appends no
report entry; a successful pair creates exactly two temp dirs, removes exactly
two, and appends exactly one report entry. -/
theorem processPair_spec (env : RunEnv) (video audio out : String) (st : RunSt) :
    ((processPair env video audio out st).1 ≠ none ∧
        (processPair env video audio out st).2.removedDirs = st.removedDirs ∧
        (processPair env video audio out st).2.report = st.report) ∨
      ((processPair env video audio out st).1 = none ∧
        (processPair env video audio out st).2.removedDirs.length = st.removedDirs.length + 2 ∧
        (processPair env video audio out st).2.report.length = st.report.length + 1 ∧
        (processPair env video audio out st).2.alignDirs.length = st.alignDirs.length + 2) := by
  unfold processPair
  dsimp only
  split
  case h_1 e st1 heq =>
    have h2 := congrArg Prod.snd heq
    dsimp only at h2
    refine Or.inl ⟨by simp, ?_, ?_⟩
    · rw [← h2, extract_removedDirs]
    · rw [← h2, extract_report]
  case h_2 vDir vEs st1 heq =>
    have h2 := congrArg Prod.snd heq
    dsimp only at h2
    split
    case h_1 e st2 heq2 =>
      have h3 := congrArg Prod.snd heq2
      dsimp only at h3
      refine Or.inl ⟨by simp, ?_, ?_⟩
      · rw [← h3, extract_removedDirs, ← h2, extract_removedDirs]
      · rw [← h3, extract_report, ← h2, extract_report]
    case h_2 aDir aEs st2 heq2 =>
      have h3 := congrArg Prod.snd heq2
      dsimp only at h3
      split
      case isTrue hshort =>
        refine Or.inl ⟨by simp, ?_, ?_⟩
        · rw [← h3, extract_removedDirs, ← h2, extract_removedDirs]
        · rw [← h3, extract_report, ← h2, extract_report]
      case isFalse hlong =>
        have hrem : st2.removedDirs = st.removedDirs := by
          rw [← h3, extract_removedDirs, ← h2, extract_removedDirs]
        have hrep : st2.report = st.report := by
          rw [← h3, extract_report, ← h2, extract_report]
        have halign1 := (extract_ok_decode env video _ vDir vEs st1 heq).2
        have halign2 := (extract_ok_decode env audio _ aDir aEs st2 heq2).2
        split
        case h_1 e heq3 =>
          refine Or.inl ⟨by simp, hrem, hrep⟩
        case h_2 heq3 =>
          refine Or.inr ⟨rfl, ?_, ?_, ?_⟩
          · simp [hrem]
          · simp [hrep]
          · simp only [RunSt.alignDirs] at halign1 halign2 ⊢
            omega

/-- Every remux call recorded by a pair either predates the pair or belongs to
a pair whose two decoded profiles both have at least 5 values. -/
theorem processPair_mux_spec (env : RunEnv) (video audio out : String) (st : RunSt)
    (v a : String) (off : ℚ)
    (hmem : ToolCall.mux v a off ∈ (processPair env video audio out st).2.calls) :
    ToolCall.mux v a off ∈ st.calls ∨
      ∃ ev ea, env.decode v = Except.ok ev ∧ env.decode a = Except.ok ea ∧
        5 ≤ ev.length ∧ 5 ≤ ea.length := by
  unfold processPair at hmem
  dsimp only at hmem
  split at hmem
  case h_1 e st1 heq =>
    dsimp only at hmem
    have h2 := congrArg Prod.snd heq
    dsimp only at h2
    rw [← h2] at hmem
    have hfin := extract_mux_subset env video _ v a off hmem
    exact Or.inl hfin
  case h_2 vDir vEs st1 heq =>
    have h2 := congrArg Prod.snd heq
    dsimp only at h2
    split at hmem
    case h_1 e st2 heq2 =>
      dsimp only at hmem
      have h3 := congrArg Prod.snd heq2
      dsimp only at h3
      rw [← h3] at hmem
      have := extract_mux_subset env audio _ v a off hmem
      rw [← h2] at this
      have hfin := extract_mux_subset env video _ v a off this
      exact Or.inl hfin
    case h_2 aDir aEs st2 heq2 =>
      have h3 := congrArg Prod.snd heq2
      dsimp only at h3
      split at hmem
      case isTrue hshort =>
        dsimp only at hmem
        rw [← h3] at hmem
        have := extract_mux_subset env audio _ v a off hmem
        rw [← h2] at this
        have hfin := extract_mux_subset env video _ v a off this
        exact Or.inl hfin
      case isFalse hlong =>
        split at hmem
        case h_1 e heq3 =>
          dsimp only at hmem
          rcases List.mem_append.mp hmem with h4 | h5
          · rw [← h3] at h4
            have := extract_mux_subset env audio _ v a off h4
            rw [← h2] at this
            have hfin := extract_mux_subset env video _ v a off this
            exact Or.inl hfin
          · simp only [List.mem_singleton] at h5
            injection h5 with hv ha hoff
            have hdv := (extract_ok_decode env video _ vDir vEs st1 heq).1
            have hda := (extract_ok_decode env audio _ aDir aEs st2 heq2).1
            push_neg at hlong
            rw [hv, ha]
            exact Or.inr ⟨vEs, aEs, hdv, hda, hlong.1, hlong.2⟩
        case h_2 heq3 =>
          dsimp only at hmem
          rcases List.mem_append.mp hmem with h4 | h5
          · rw [← h3] at h4
            have := extract_mux_subset env audio _ v a off h4
            rw [← h2] at this
            have hfin := extract_mux_subset env video _ v a off this
            exact Or.inl hfin
          · simp only [List.mem_singleton] at h5
            injection h5 with hv ha hoff
            have hdv := (extract_ok_decode env video _ vDir vEs st1 heq).1
            have hda := (extract_ok_decode env audio _ aDir aEs st2 heq2).1
            push_neg at hlong
            rw [hv, ha]
            exact Or.inr ⟨vEs, aEs, hdv, hda, hlong.1, hlong.2⟩

/-- A pair whose decoded profiles are both available but too short (fewer than
5 values on either side) aborts with the descriptive analyze error and records
no remux invocation. -/
theorem processPair_short_profile (env : RunEnv) (video audio out : String) (st : RunSt)
    (ev ea : List ℚ) (hav : env.ffmpegAvailable = true)
    (hv : env.decode video = Except.ok ev) (ha : env.decode audio = Except.ok ea)
    (hshort : ev.length < 5 ∨ ea.length < 5) :
    (processPair env video audio out st).1 = some analyzeErrorMsg ∧
      muxCalls (processPair env video audio out st).2.calls = muxCalls st.calls := by
  unfold processPair
  dsimp only
  rw [extract_eval_ok env video _ ev hav hv]
  dsimp only
  rw [extract_eval_ok env audio _ ea hav ha]
  dsimp only
  rw [if_pos hshort]
  refine ⟨rfl, ?_⟩
  simp [muxCalls, List.filter_append, isMuxCall]

theorem runPairs_cleanup (env : RunEnv) (provided : Option String) (pairs : ℕ)
    (baseDir baseName : String) :
    ∀ (items : List (ℕ × String × String)) (st : RunSt),
      st.removedDirs.length = 2 * st.report.length →
      st.alignDirs.length = st.removedDirs.length →
      ((runPairs env provided pairs baseDir baseName items st).2.removedDirs.length =
          2 * (runPairs env provided pairs baseDir baseName items st).2.report.length ∧
        ((runPairs env provided pairs baseDir baseName items st).1.success = true →
          (runPairs env provided pairs baseDir baseName items st).2.alignDirs.length =
            (runPairs env provided pairs baseDir baseName items st).2.removedDirs.length)) := by
  intro items
  induction items with
  | nil =>
    intro st h1 h2
    exact ⟨h1, fun _ => h2⟩
  | cons it rest ih =>
    obtain ⟨i, video, audio⟩ := it
    intro st h1 h2
    unfold runPairs
    dsimp only
    rcases processPair_spec env video audio
        (deriveOutputPath provided pairs baseDir baseName video i) st with
      ⟨hne, hrem, hrep⟩ | ⟨hok, hrem, hrep, halign⟩
    · split
      case h_1 e st1 heq =>
        have h3 := congrArg Prod.snd heq
        dsimp only at h3
        rw [← h3]
        refine ⟨?_, fun hfalse => by simp at hfalse⟩
        rw [hrem, hrep, h1]
      case h_2 st1 heq =>
        exact absurd (congrArg Prod.fst heq) (by simpa using hne)
    · split
      case h_1 e st1 heq =>
        exact absurd (congrArg Prod.fst heq) (by simp [hok])
      case h_2 st1 heq =>
        have h3 := congrArg Prod.snd heq
        dsimp only at h3
        rw [← h3]
        exact ih _ (by omega) (by omega)

theorem runPairs_mux (env : RunEnv) (provided : Option String) (pairs : ℕ)
    (baseDir baseName : String) :
    ∀ (items : List (ℕ × String × String)) (st : RunSt) (v a : String) (off : ℚ),
      ToolCall.mux v a off ∈ (runPairs env provided pairs baseDir baseName items st).2.calls →
      ToolCall.mux v a off ∈ st.calls ∨
        ∃ ev ea, env.decode v = Except.ok ev ∧ env.decode a = Except.ok ea ∧
          5 ≤ ev.length ∧ 5 ≤ ea.length := by
  intro items
  induction items with
  | nil =>
    intro st v a off h
    exact Or.inl h
  | cons it rest ih =>
    obtain ⟨i, video, audio⟩ := it
    intro st v a off h
    unfold runPairs at h
    dsimp only at h
    split at h
    case h_1 e st1 heq =>
      dsimp only at h
      have h3 := congrArg Prod.snd heq
      dsimp only at h3
      rw [← h3] at h
      exact processPair_mux_spec env video audio _ st v a off h
    case h_2 st1 heq =>
      have h3 := congrArg Prod.snd heq
      dsimp only at h3
      rcases ih st1 v a off h with hmem | hgood
      · rw [← h3] at hmem
        exact processPair_mux_spec env video audio _ st v a off hmem
      · exact Or.inr hgood

/-! ## Claims C1, C3 and C6: orchestrator behaviour -/

/-- Environment in which ffmpeg is available and every input decodes to a
3-value (too short) energy profile. -/
def envShortProfiles : RunEnv :=
  ⟨true, fun _ => Except.ok [0, 0, 0], fun _ _ => none⟩

/-- Environment in which ffmpeg is unavailable. -/
def envNoFfmpeg : RunEnv :=
  ⟨false, fun _ => Except.error "spawn ffmpeg ENOENT", fun _ _ => none⟩

/-- Environment in which every step succeeds (5-value profiles, muxing ok). -/
def envAllOk : RunEnv :=
  ⟨true, fun _ => Except.ok [0, 0, 0, 0, 0], fun _ _ => none⟩

/-- Claim C1, counterexample: a run whose only pair fails the
too-short-profile check returns that error having created both decode temp
dirs and removed none of them — the failure path leaks the pair's temp
directories. -/
theorem c1_counterexample :
    (alignmentRun envShortProfiles ["v.mp4"] ["a.wav"] none none).1.error =
        some analyzeErrorMsg ∧
      (alignmentRun envShortProfiles ["v.mp4"] ["a.wav"] none none).2.alignDirs = [0, 1] ∧
      (alignmentRun envShortProfiles ["v.mp4"] ["a.wav"] none none).2.removedDirs = [] :=
  ⟨rfl, rfl, rfl⟩

/-- Claim C1 (amended): the run removes exactly two temp directories per
successfully completed pair — a fully successful run removes every temp
directory it created, while a run that fails on some pair removes only the
completed pairs' directories and leaves the failing pair's created directories
behind (see the counterexample). -/
theorem c1_cleanup_on_success_only (env : RunEnv) (videoPaths audioPaths : List String)
    (outputPath prepend : Option String) :
    (alignmentRun env videoPaths audioPaths outputPath prepend).2.removedDirs.length =
        2 * (alignmentRun env videoPaths audioPaths outputPath prepend).2.report.length ∧
      ((alignmentRun env videoPaths audioPaths outputPath prepend).1.success = true →
        (alignmentRun env videoPaths audioPaths outputPath prepend).2.alignDirs.length =
          (alignmentRun env videoPaths audioPaths outputPath prepend).2.removedDirs.length) := by
  unfold alignmentRun
  dsimp only
  split
  · split
    · exact ⟨rfl, fun hfalse => by simp at hfalse⟩
    · split <;>
        exact runPairs_cleanup env _ _ _ _ _ _
          (by first | (split <;> rfl) | rfl) (by first | (split <;> rfl) | rfl)
  · exact ⟨rfl, fun hfalse => by simp at hfalse⟩

/-- Claim C1 witness instance: a fully successful single-pair run removes both
of the temp directories it created. -/
theorem c1_witness :
    (alignmentRun envAllOk ["v.mp4"] ["a.wav"] none none).2.removedDirs.length =
        2 * (alignmentRun envAllOk ["v.mp4"] ["a.wav"] none none).2.report.length ∧
      (alignmentRun envAllOk ["v.mp4"] ["a.wav"] none none).2.alignDirs.length =
        (alignmentRun envAllOk ["v.mp4"] ["a.wav"] none none).2.removedDirs.length := by
  have h := c1_cleanup_on_success_only envAllOk ["v.mp4"] ["a.wav"] none none
  exact ⟨h.1, h.2 rfl⟩

/-- Claim C3, counterexample: a run with an empty video list but no available
media tool returns the environment error, not the input error — the
availability check precedes the input check. -/
theorem c3_counterexample :
    (alignmentRun envNoFfmpeg [] ["a.wav"] none none).1.error = some ffmpegRequiredMsg ∧
      (alignmentRun envNoFfmpeg [] ["a.wav"] none none).1.error ≠ some inputsRequiredMsg := by
  refine ⟨rfl, fun h => ?_⟩
  have h2 : (some ffmpegRequiredMsg : Option String) = some inputsRequiredMsg := h
  simp [ffmpegRequiredMsg, inputsRequiredMsg] at h2

/-- Claim C3 (amended): when the media tool is available, a run invoked with
an empty video-path list or an empty audio-path list returns the input error
having made no decode, mux or duration invocation — its only external spawn is
the single `ffmpeg -version` availability probe. -/
theorem c3_empty_inputs (env : RunEnv) (videoPaths audioPaths : List String)
    (outputPath prepend : Option String) (hav : env.ffmpegAvailable = true)
    (hempty : videoPaths = [] ∨ audioPaths = []) :
    (alignmentRun env videoPaths audioPaths outputPath prepend).1.error =
        some inputsRequiredMsg ∧
      (alignmentRun env videoPaths audioPaths outputPath prepend).2.calls =
        [ToolCall.versionProbe] := by
  unfold alignmentRun
  rw [hav]
  dsimp only
  rw [if_pos hempty]
  exact ⟨rfl, rfl⟩

/-- Claim C3 witness instance: empty video list with the tool available. -/
theorem c3_witness :
    (alignmentRun envShortProfiles [] ["a.wav"] none none).1.error =
        some inputsRequiredMsg ∧
      (alignmentRun envShortProfiles [] ["a.wav"] none none).2.calls =
        [ToolCall.versionProbe] :=
  c3_empty_inputs envShortProfiles [] ["a.wav"] none none rfl (Or.inl rfl)

/-- Claim C6: (1) every remux invocation any run ever records belongs to a
pair both of whose decoded energy profiles have at least 5 values — a pair
with a shorter profile is never remuxed; (2) a pair that decodes to a profile
with fewer than 5 values on either side aborts with the descriptive analyze
error, recording no remux invocation. -/
theorem c6_short_profile_aborts :
    (∀ (env : RunEnv) (videoPaths audioPaths : List String)
        (outputPath prepend : Option String) (v a : String) (off : ℚ),
        ToolCall.mux v a off ∈
            (alignmentRun env videoPaths audioPaths outputPath prepend).2.calls →
        ∃ ev ea, env.decode v = Except.ok ev ∧ env.decode a = Except.ok ea ∧
          5 ≤ ev.length ∧ 5 ≤ ea.length) ∧
      ∀ (env : RunEnv) (video audio out : String) (st : RunSt) (ev ea : List ℚ),
        env.ffmpegAvailable = true →
        env.decode video = Except.ok ev → env.decode audio = Except.ok ea →
        (ev.length < 5 ∨ ea.length < 5) →
        (processPair env video audio out st).1 = some analyzeErrorMsg ∧
          muxCalls (processPair env video audio out st).2.calls = muxCalls st.calls := by
  constructor
  · intro env videoPaths audioPaths outputPath prepend v a off hmem
    unfold alignmentRun at hmem
    dsimp only at hmem
    split at hmem
    · split at hmem
      · dsimp only at hmem
        simp at hmem
      · rcases runPairs_mux env _ _ _ _ _ _ v a off hmem with hin | hgood
        · repeat' split at hin
          all_goals simp at hin
        · exact hgood
    · dsimp only at hmem
      simp at hmem
  · intro env video audio out st ev ea hav hv ha hshort
    exact processPair_short_profile env video audio out st ev ea hav hv ha hshort

/-- Claim C6 witness instance: a pair decoding to 3-value profiles aborts with
the analyze error and records no remux invocation. -/
theorem c6_witness :
    (processPair envShortProfiles "v.mp4" "a.wav" "o.mp4" initRunSt).1 =
        some analyzeErrorMsg ∧
      muxCalls (processPair envShortProfiles "v.mp4" "a.wav" "o.mp4" initRunSt).2.calls =
        muxCalls initRunSt.calls :=
  c6_short_profile_aborts.2 envShortProfiles "v.mp4" "a.wav" "o.mp4" initRunSt
    [0, 0, 0] [0, 0, 0] rfl rfl rfl (Or.inl (by norm_num))

end Opendesc
